import Mathlib

/-!
Verification of the q-fetcher prefetcher core (a Q-learning based cache
prefetcher operating on a preprocessed load trace).

The development shallowly embeds the source modules:
  * `utils/signature_hash.py`   — `SignatureHash`
  * `prefetcher/delta_q.py`     — `DeltaQTable`
  * `utils/replacement_policy.py` — `LRU`
  * `prefetcher/reward_tracker.py` — `RewardTrackerTable`
  * `prefetcher/qfetcher.py`    — `QFetcher`

Modelling conventions:
  * Python arbitrary-precision integers become `Int` (or `Nat` where the
    value is a bit count); Python `x << n` on such integers is exact
    multiplication by `2 ^ n`, and Python `&` / `^` on arbitrary-precision
    integers are the infinite twos-complement operations, which are exactly
    the Mathlib definitions `Int.land` / `Int.xor`.
  * The reward table is a `numpy` `int64` matrix: every value stored into a
    cell, and every in-place arithmetic update of a cell, wraps to the
    signed 64-bit range.  This wrap is modelled by `w64`.
  * The `numpy` `float64` Q-value matrix is modelled with exact rationals.
  * Fallible operations (failing `assert` statements, `ZeroDivisionError`,
    `np.zeros` with a negative dimension, Python `TypeError` on a call with
    the wrong number of arguments, `np.argmin` of an empty array) are
    modelled with `Except String`.
-/

/-- Signed 64-bit wrap-around used by every store into / in-place update of a
`numpy` `int64` cell.  The literals are `2 ^ 63` and `2 ^ 64`. -/
def w64 (x : Int) : Int :=
  (x + 9223372036854775808) % 18446744073709551616 - 9223372036854775808

/-- First index attaining the maximum of `f 0, …, f (n-1)`; this is the
semantics of `numpy.ndarray.argmax` (left-to-right scan, replacing the
current best only on a strict improvement).  For `n = 0` the value is `0`
(the callers below only evaluate it on nonempty rows). -/
def npArgmax {α : Type} [LinearOrder α] (f : Nat → α) : Nat → Nat
  | 0 => 0
  | 1 => 0
  | n + 2 => if f (npArgmax f (n + 1)) < f (n + 1) then n + 1 else npArgmax f (n + 1)

/-- First index attaining the minimum of `f 0, …, f (n-1)`; the semantics of
`numpy.ndarray.argmin`. -/
def npArgmin {α : Type} [LinearOrder α] (f : Nat → α) : Nat → Nat
  | 0 => 0
  | 1 => 0
  | n + 2 => if f (n + 1) < f (npArgmin f (n + 1)) then n + 1 else npArgmin f (n + 1)

/-- Maximum of `f 0, …, f (n-1)` (specification-side definition of "the
maximum Q-value in the row"). -/
def rowMaxValue {α : Type} [LinearOrder α] (f : Nat → α) : Nat → α
  | 0 => f 0
  | 1 => f 0
  | n + 2 => max (rowMaxValue f (n + 1)) (f (n + 1))

/-! ### `utils/signature_hash.py` -/

/-- Number of binary digits of a positive natural number, computed with a
fuel argument (the fuel is an upper bound on the number; the second zero
case is unreachable for the callers, which pass the number itself as
fuel). -/
def binDigitsAux : Nat → Nat → Nat
  | _, 0 => 0
  | 0, _ + 1 => 1
  | fuel + 1, n + 1 => binDigitsAux fuel ((n + 1) / 2) + 1

/-- Length of the binary digit string `bin(m)` of a natural number, without
the `0b` prefix (Python renders `0` as the one-character string `0`). -/
def pyBinLen (m : Nat) : Nat := if m = 0 then 1 else binDigitsAux m m

/-- Embedding of the class `SignatureHash`.  The field `max_bits_per_delta`
is computed by `__init__` but never read by any method of the class. -/
structure SignatureHash where
  signature_bits : Nat
  n_shifts : Nat
  max_bits_per_delta : Nat

/-- Embedding of `SignatureHash.__init__`: `max_bits_per_delta` is the
length of the binary-magnitude string of `max_delta_val` plus one. -/
def SignatureHash.init (signature_bits n_shifts : Nat) (max_delta_val : Int) : SignatureHash :=
  { signature_bits := signature_bits
    n_shifts := n_shifts
    max_bits_per_delta := pyBinLen max_delta_val.natAbs + 1 }

/-- Embedding of `SignatureHash._to_sign_magnitude`.  The Python code takes
the binary digit string of the magnitude of `delta` (whose length varies
with `delta`; `self.max_bits_per_delta` is not consulted), prepends the
character `1` for a negative value and `0` otherwise, and reads the result
back as an integer.  Hence a non-negative `delta` encodes to itself and a
negative `delta` of magnitude `m` encodes to `m + 2 ^ pyBinLen m`. -/
def SignatureHash.to_sign_magnitude (delta : Int) : Int :=
  if delta < 0 then (delta.natAbs : Int) + 2 ^ pyBinLen delta.natAbs else delta

/-- Embedding of `SignatureHash.next_signature`: shift the current signature
left by `n_shifts` bits (exact multiplication on Python integers), XOR with
the sign-magnitude encoding of the delta, and mask with
`(1 << signature_bits) - 1`. -/
def SignatureHash.next_signature (h : SignatureHash) (curr_signature delta : Int) : Int :=
  Int.land
    (Int.xor (curr_signature * 2 ^ h.n_shifts) (SignatureHash.to_sign_magnitude delta))
    (2 ^ h.signature_bits - 1)

/-! ### `prefetcher/delta_q.py` -/

/-- Embedding of the class `DeltaQTable`.  The `numpy` `float64` matrix
`delta_q_table` is modelled as a total function over row and column indices
with exact rational entries; a constructed table only ever populates rows
`0 ≤ s < n_delta_q_entries` and columns `0 ≤ a < n_cache_line_offsets`. -/
structure DeltaQTable where
  signature_bits : Int
  alpha : ℚ
  gamma : ℚ
  epsilon : ℚ
  page_size_bytes : Int
  cache_line_size_bytes : Int
  n_cache_blks_per_page : Int
  n_cache_line_offsets : Int
  n_delta_q_entries : Nat
  delta_q_table : Int → Int → ℚ
  largest_delta : Int
  least_delta : Int
  signature_hasher : SignatureHash

/-- Embedding of `DeltaQTable.__init__`.  The three `assert` statements run
first, in source order (`x & (x-1) == 0` is Python bitwise AND, i.e.
`Int.land`); then `page_size_bytes // cache_line_size_bytes` (floor
division, raising `ZeroDivisionError` on a zero line size) and `_create`,
where `np.zeros` rejects the negative column count that arises when the
division yields zero blocks per page. -/
def DeltaQTable.init (signature_bits signature_shift : Int) (alpha gamma epsilon : ℚ)
    (page_size_bytes cache_line_size_bytes : Int) : Except String DeltaQTable :=
  if Int.land page_size_bytes (page_size_bytes - 1) ≠ 0 then
    .error "AssertionError: Page size must be a power of 2"
  else if Int.land cache_line_size_bytes (cache_line_size_bytes - 1) ≠ 0 then
    .error "AssertionError: Cache line size must be a power of 2"
  else if signature_bits ≤ 1 then
    .error "AssertionError: Signature bits must be > 1"
  else if cache_line_size_bytes = 0 then
    .error "ZeroDivisionError: integer division or modulo by zero"
  else
    let blocks := Int.fdiv page_size_bytes cache_line_size_bytes
    let ncols := 2 * blocks - 1
    if ncols < 0 then
      .error "ValueError: negative dimensions are not allowed"
    else
      .ok { signature_bits := signature_bits
            alpha := alpha
            gamma := gamma
            epsilon := epsilon
            page_size_bytes := page_size_bytes
            cache_line_size_bytes := cache_line_size_bytes
            n_cache_blks_per_page := blocks
            n_cache_line_offsets := ncols
            n_delta_q_entries := 2 ^ signature_bits.toNat
            delta_q_table := fun _ _ => 0
            largest_delta := blocks - 1
            least_delta := -(blocks - 1)
            signature_hasher :=
              SignatureHash.init signature_bits.toNat signature_shift.toNat (blocks - 1) }

/-- Embedding of `DeltaQTable._get_column_index`. -/
def DeltaQTable.get_column_index (t : DeltaQTable) (delta : Int) : Int :=
  delta - t.least_delta

/-- Embedding of `DeltaQTable._get_delta_from_idx`. -/
def DeltaQTable.get_delta_from_idx (t : DeltaQTable) (col_idx : Int) : Int :=
  col_idx + t.least_delta

/-- Embedding of `DeltaQTable.get_next_offset`.  The two consumptions of the
pseudo-random source are explicit inputs: `u` is the `np.random.uniform()`
draw (a value in `[0, 1)`) and `randChoice` the index that
`np.random.choice(range(n_cache_line_offsets))` would return. -/
def DeltaQTable.get_next_offset (t : DeltaQTable) (u : ℚ) (randChoice : Nat)
    (delta_signature : Int) : Nat × Int × Int :=
  let delta_idx : Nat :=
    if u < t.epsilon then randChoice
    else npArgmax (fun i => t.delta_q_table delta_signature (i : Int))
      t.n_cache_line_offsets.toNat
  let delta := t.get_delta_from_idx (delta_idx : Int)
  (delta_idx, delta, delta * t.cache_line_size_bytes)

/-- Embedding of `DeltaQTable.update` (the tabular Q-learning rule).  The
argmax over the row of the next signature is `numpy` argmax over all
`n_cache_line_offsets` columns. -/
def DeltaQTable.update (t : DeltaQTable) (signature delta : Int) (reward : ℚ) : DeltaQTable :=
  let s_curr := signature
  let a_curr := t.get_column_index delta
  let s_next := t.signature_hasher.next_signature s_curr delta
  let a_next : Nat :=
    npArgmax (fun i => t.delta_q_table s_next (i : Int)) t.n_cache_line_offsets.toNat
  let q_sa := t.delta_q_table s_curr a_curr
  let q_next := t.delta_q_table s_next (a_next : Int)
  { t with delta_q_table := fun s a =>
      if s = s_curr ∧ a = a_curr then
        q_sa + t.alpha * (reward + t.gamma * q_next - q_sa)
      else t.delta_q_table s a }

/-! ### `utils/replacement_policy.py` -/

/-- Embedding of `ReplacementPolicyBase.check_invalid_entry`:
`np.any(valid_bits != 1)` over the `n` valid bits. -/
def ReplacementPolicyBase.check_invalid_entry (valid_bits : Nat → Int) (n : Nat) : Bool :=
  decide (∃ i, i < n ∧ valid_bits i ≠ 1)

/-- Embedding of `LRU.find_victim`: if any entry is not valid, the first
index attaining the minimum of the valid bits (i.e. the first invalid
entry); otherwise the first index attaining the minimum timestamp.
`np.argmin` raises on an empty array, which only happens for `n = 0`. -/
def LRU.find_victim (logical_ctrs valid_bits : Nat → Int) (n : Nat) : Except String Nat :=
  if n = 0 then .error "ValueError: attempt to get argmin of an empty sequence"
  else if ReplacementPolicyBase.check_invalid_entry valid_bits n then
    .ok (npArgmin valid_bits n)
  else
    .ok (npArgmin logical_ctrs n)

/-! ### `prefetcher/reward_tracker.py` -/

/-- Module-level reward constant `REWARD_HIT`. -/
def REWARD_HIT : Int := 16

/-- Module-level reward constant `REWARD_PSEUDO_HIT`. -/
def REWARD_PSEUDO_HIT : Int := 8

/-- Module-level reward constant `REWARD_MISS`. -/
def REWARD_MISS : Int := -1

/-- One row of the reward-tracking table, i.e. one row of the `n_entries × 7`
`numpy` `int64` matrix, with the seven columns of
`REWARD_TABLE_COLUMNS_LIST` as named fields. -/
structure RewardEntry where
  prefetched_address : Int
  delta : Int
  delta_signature : Int
  reward : Int
  step : Int
  timestamp : Int
  valid : Int
deriving DecidableEq

/-- Embedding of the class `RewardTrackerTable`.  The matrix is modelled as
a total function from row index to row; rows at indices `≥ n_entries` are
never touched by any operation. -/
structure RewardTrackerTable where
  n_entries : Nat
  steps_per_entry : Int
  delta_q_table : DeltaQTable
  reward_hit : Int
  reward_semi_hit : Int
  reward_miss : Int
  logical_clock : Int
  reward_table : Nat → RewardEntry

/-- Embedding of `RewardTrackerTable.__init__` with the default reward
arguments: the table starts zeroed (`np.zeros`) and the logical clock at 0. -/
def RewardTrackerTable.init (n_entries : Nat) (steps_per_entry : Int)
    (dq : DeltaQTable) : RewardTrackerTable :=
  { n_entries := n_entries
    steps_per_entry := steps_per_entry
    delta_q_table := dq
    reward_hit := REWARD_HIT
    reward_semi_hit := REWARD_PSEUDO_HIT
    reward_miss := REWARD_MISS
    logical_clock := 0
    reward_table := fun _ => ⟨0, 0, 0, 0, 0, 0, 0⟩ }

/-- Row mask `entry_matches` computed by `RewardTrackerTable._lookup`:
address match AND valid bit set. -/
def RewardTrackerTable.entry_matches (t : RewardTrackerTable) (load_addr : Int)
    (i : Nat) : Bool :=
  decide ((t.reward_table i).prefetched_address = load_addr) &&
    decide ((t.reward_table i).valid > 0)

/-- Row mask `entry_and_delta_sig_matches` computed by
`RewardTrackerTable._lookup`: address match AND valid AND signature match. -/
def RewardTrackerTable.exact_matches (t : RewardTrackerTable)
    (load_addr delta_signature : Int) (i : Nat) : Bool :=
  t.entry_matches load_addr i &&
    decide ((t.reward_table i).delta_signature = delta_signature)

/-- Sum of a boolean row mask over the `n_entries` rows (`mask.sum()`). -/
def RewardTrackerTable.mask_sum (t : RewardTrackerTable) (mask : Nat → Bool) : Nat :=
  (List.range t.n_entries).countP mask

/-- Flag `entry_found` computed by `RewardTrackerTable._lookup`:
`entry_matches.sum() > 0`. -/
def RewardTrackerTable.entry_found (t : RewardTrackerTable) (load_addr : Int) : Bool :=
  decide (0 < t.mask_sum (t.entry_matches load_addr))

/-- Embedding of `RewardTrackerTable._lookup`, returning
`(entry_found, entry_matches, entry_and_delta_sig_matches)`. -/
def RewardTrackerTable.lookup (t : RewardTrackerTable) (load_addr delta_signature : Int) :
    Bool × (Nat → Bool) × (Nat → Bool) :=
  (t.entry_found load_addr, t.entry_matches load_addr,
    t.exact_matches load_addr delta_signature)

/-- Embedding of `RewardTrackerTable._increment_ticks` (the logical clock is
a plain Python integer, so it does not wrap). -/
def RewardTrackerTable.increment_ticks (t : RewardTrackerTable) : RewardTrackerTable :=
  { t with logical_clock := t.logical_clock + 1 }

/-- Embedding of `RewardTrackerTable._increment_steps`: the step column of
every row (valid or not) is incremented in place. -/
def RewardTrackerTable.increment_steps (t : RewardTrackerTable) : RewardTrackerTable :=
  { t with reward_table := fun i =>
      if i < t.n_entries then
        { t.reward_table i with step := w64 ((t.reward_table i).step + 1) }
      else t.reward_table i }

/-- Embedding of `RewardTrackerTable._update_existing`: rows in the mask get
their timestamp refreshed to the current logical clock and the hit reward
added. -/
def RewardTrackerTable.update_existing (t : RewardTrackerTable) (idx_mask : Nat → Bool) :
    RewardTrackerTable :=
  { t with reward_table := fun i =>
      if i < t.n_entries ∧ idx_mask i = true then
        { t.reward_table i with
            timestamp := w64 t.logical_clock
            reward := w64 ((t.reward_table i).reward + t.reward_hit) }
      else t.reward_table i }

/-- Embedding of `RewardTrackerTable._invalidate_entries`: rows that are
valid and whose step count has reached `steps_per_entry` are flushed into
the Q-table one by one in row order, then their valid bits are cleared.
(The early `return` when the mask is empty coincides with the general
path.) -/
def RewardTrackerTable.invalidate_entries (t : RewardTrackerTable) : RewardTrackerTable :=
  let expired : Nat → Bool := fun i =>
    decide ((t.reward_table i).valid > 0) &&
      decide (t.steps_per_entry ≤ (t.reward_table i).step)
  let q := (List.range t.n_entries).foldl
    (fun q i =>
      if expired i then
        q.update (t.reward_table i).delta_signature (t.reward_table i).delta
          ((t.reward_table i).reward : ℚ)
      else q)
    t.delta_q_table
  { t with
      delta_q_table := q
      reward_table := fun i =>
        if i < t.n_entries ∧ expired i = true then
          { t.reward_table i with valid := 0 }
        else t.reward_table i }

/-- Embedding of `RewardTrackerTable._issue_rewards`.  In source order: the
miss penalty is added to every valid row; the penalty is cancelled on the
rows of `all_matches`; then, only when `entry_found` is set, the rows that
match exactly get `_update_existing` (when any exist) and the rows matching
the address under a different signature (the XOR of the two masks) get the
pseudo-hit reward. -/
def RewardTrackerTable.issue_rewards (t : RewardTrackerTable) (entry_found : Bool)
    (all_matches all_with_delta_sig_matches : Nat → Bool) : RewardTrackerTable :=
  let t1 : RewardTrackerTable :=
    { t with reward_table := fun i =>
        if i < t.n_entries ∧ (t.reward_table i).valid > 0 then
          { t.reward_table i with reward := w64 ((t.reward_table i).reward + t.reward_miss) }
        else t.reward_table i }
  let t2 : RewardTrackerTable :=
    { t1 with reward_table := fun i =>
        if i < t.n_entries ∧ all_matches i = true then
          { t1.reward_table i with reward := w64 ((t1.reward_table i).reward - t.reward_miss) }
        else t1.reward_table i }
  let xor_mask : Nat → Bool := fun i => all_matches i != all_with_delta_sig_matches i
  if entry_found then
    let t3 : RewardTrackerTable :=
      if 0 < t.mask_sum all_with_delta_sig_matches then
        t2.update_existing all_with_delta_sig_matches
      else t2
    { t3 with reward_table := fun i =>
        if i < t.n_entries ∧ xor_mask i = true then
          { t3.reward_table i with
              reward := w64 ((t3.reward_table i).reward + t.reward_semi_hit) }
        else t3.reward_table i }
  else t2

/-- Embedding of `RewardTrackerTable.check_n_give_reward`: look up the
address, return unchanged when no valid address match was found, otherwise
issue the rewards.  No entry is inserted and the logical clock is not
advanced. -/
def RewardTrackerTable.check_n_give_reward (t : RewardTrackerTable)
    (load_addr delta_signature : Int) : RewardTrackerTable :=
  if t.entry_found load_addr then
    t.issue_rewards (t.entry_found load_addr) (t.entry_matches load_addr)
      (t.exact_matches load_addr delta_signature)
  else t

/-- Embedding of `RewardTrackerTable.insert` (the three-parameter function
as defined in the source).  Sequence: invalidate expired entries, increment
all step counters, look up, assert at most one exact match, compute the
replacement victim, issue rewards, then — when no exact match existed —
flush the victim row into the Q-table and overwrite it with the new record;
finally advance the logical clock. -/
def RewardTrackerTable.insert (t0 : RewardTrackerTable)
    (pref_addr delta delta_signature : Int) : Except String RewardTrackerTable := do
  let t1 := t0.invalidate_entries
  let t2 := t1.increment_steps
  let addr_found := t2.entry_found pref_addr
  let addr_matches := t2.entry_matches pref_addr
  let exacts := t2.exact_matches pref_addr delta_signature
  if 1 < t2.mask_sum exacts then
    throw "AssertionError: ERROR: Multiple matches found"
  else
    let victim ← LRU.find_victim (fun i => (t2.reward_table i).timestamp)
      (fun i => (t2.reward_table i).valid) t2.n_entries
    let t3 := t2.issue_rewards addr_found addr_matches exacts
    let t4 :=
      if t2.mask_sum exacts = 0 then
        let v := t3.reward_table victim
        { t3 with
            delta_q_table := t3.delta_q_table.update v.delta_signature v.delta (v.reward : ℚ)
            reward_table := fun i =>
              if i = victim then
                { prefetched_address := w64 pref_addr
                  delta := w64 delta
                  delta_signature := w64 delta_signature
                  reward := w64 t3.reward_hit
                  step := 0
                  timestamp := w64 t3.logical_clock
                  valid := 1 }
              else t3.reward_table i }
      else t3
    pure t4.increment_ticks

/-- Python-call-semantics wrapper for the `insert` call site: the method is
defined with three parameters (beyond `self`), so a call supplying any
other number of positional arguments raises a `TypeError` before the body
runs. -/
def RewardTrackerTable.insert_args (t : RewardTrackerTable) (args : List Int) :
    Except String RewardTrackerTable :=
  match args with
  | [pref_addr, delta, delta_signature] => t.insert pref_addr delta delta_signature
  | _ => .error "TypeError: insert() takes 4 positional arguments but 5 were given"

/-! ### `prefetcher/qfetcher.py` -/

/-- One preprocessed trace element: the instruction pointer paired with the
`(address, tag, block_id)` tuple produced by `PreprocessAddress`. -/
structure TraceEntry where
  ip : Int
  load_addr : Int
  load_tag : Int
  cache_blk : Int

/-- Embedding of the class `QFetcher` after `initialize()`: the prefetcher
shares one `DeltaQTable` (and its `SignatureHash`) with its reward tracker,
so the table and hasher are reached through `reward_tracker_table`. -/
structure QFetcher where
  cache_blks_per_page : Int
  reward_tracker_table : RewardTrackerTable

/-- The `signature_hasher` reference held by `QFetcher` (obtained from
`delta_q_table.get_signature_hasher()`). -/
def QFetcher.signature_hasher (q : QFetcher) : SignatureHash :=
  q.reward_tracker_table.delta_q_table.signature_hasher

/-- Embedding of `QFetcher.check_if_prefetched`. -/
def QFetcher.check_if_prefetched (q : QFetcher) (load_addr delta_signature : Int) :
    QFetcher :=
  { q with reward_tracker_table :=
      q.reward_tracker_table.check_n_give_reward load_addr delta_signature }

/-- Embedding of `QFetcher.issue_prefetch`.  `u` and `randChoice` feed the
epsilon-greedy sampling in `get_next_offset`.  The call
`self.reward_tracker_table.insert(pref_addr, delta_next, delta_signature,
invalid_prefetch)` passes four positional arguments (the Python bool is the
integer 1 or 0), which is routed through the call-semantics wrapper
`insert_args`.  On success the emitted output line would be the triple
`(curr_ip, pref_addr, Q-value used)`, suppressed for an invalid prefetch. -/
def QFetcher.issue_prefetch (q : QFetcher) (u : ℚ) (randChoice : Nat)
    (curr_ip curr_load_addr curr_cache_blk delta_signature : Int) :
    Except String (QFetcher × Option (Int × Int × ℚ)) := do
  let dq := q.reward_tracker_table.delta_q_table
  let r := dq.get_next_offset u randChoice delta_signature
  let delta_idx := r.1
  let delta_next := r.2.1
  let offset := r.2.2
  let pref_addr := curr_load_addr + offset
  let invalid_prefetch : Bool :=
    decide (dq.largest_delta < delta_next + curr_cache_blk) ||
      decide (delta_next + curr_cache_blk < 0)
  let t ← q.reward_tracker_table.insert_args
    [pref_addr, delta_next, delta_signature, if invalid_prefetch then 1 else 0]
  pure ({ q with reward_tracker_table := t },
    if invalid_prefetch then none
    else some (curr_ip, pref_addr, dq.delta_q_table delta_signature (delta_idx : Int)))

/-- Embedding of the loop body of `QFetcher.start` over the remaining trace
entries.  `rands k` supplies the pseudo-random draws consumed at step `k`,
`outs` accumulates the output lines written so far. -/
def QFetcher.run_steps (q : QFetcher) (rands : Nat → ℚ × Nat) (k : Nat)
    (delta_signature prev_load_tag prev_cache_blk : Int)
    (outs : List (Int × Int × ℚ)) :
    List TraceEntry → Except String (QFetcher × List (Int × Int × ℚ))
  | [] => pure (q, outs)
  | e :: rest =>
    let delta := e.cache_blk - prev_cache_blk
    if e.load_tag ≠ prev_load_tag then
      let delta := delta + q.cache_blks_per_page
      let sig := q.signature_hasher.next_signature delta_signature delta
      let q1 := q.check_if_prefetched e.load_addr sig
      q1.run_steps rands (k + 1) sig e.load_tag e.cache_blk outs rest
    else do
      let sig := q.signature_hasher.next_signature delta_signature delta
      let r ← q.issue_prefetch (rands k).1 (rands k).2 e.ip e.load_addr e.cache_blk sig
      r.1.run_steps rands (k + 1) sig e.load_tag e.cache_blk (outs ++ r.2.toList) rest

/-- Embedding of `QFetcher.start`: the first trace element only seeds
`prev_load_tag` / `prev_cache_blk` and the signature starts at 0; indexing
an empty trace raises. -/
def QFetcher.start (q : QFetcher) (rands : Nat → ℚ × Nat) :
    List TraceEntry → Except String (QFetcher × List (Int × Int × ℚ))
  | [] => .error "IndexError: list index out of range"
  | e0 :: rest => q.run_steps rands 0 0 e0.load_tag e0.cache_blk [] rest

/-! ### Concrete states and scenarios used by the theorems below -/

/-- Whether the remaining trace, processed after an entry with tag
`prev_tag`, contains at least one intra-page (same-tag) transition. -/
def hasIntraPage (prev_tag : Int) : List TraceEntry → Bool
  | [] => false
  | e :: rest => decide (e.load_tag = prev_tag) || hasIntraPage e.load_tag rest

/-- Concrete `DeltaQTable` state: exactly the value constructed by
`DeltaQTable.init 2 1 (1/2) (1/4) 0 256 64` (256-byte pages, 64-byte lines,
4 blocks per page, deltas in `[-3, 3]`, alpha `1/2`, gamma `1/4`,
epsilon `0`); see `dqW_eq_init` below. -/
def dqW : DeltaQTable :=
  { signature_bits := 2
    alpha := 1/2
    gamma := 1/4
    epsilon := 0
    page_size_bytes := 256
    cache_line_size_bytes := 64
    n_cache_blks_per_page := 4
    n_cache_line_offsets := 7
    n_delta_q_entries := 4
    delta_q_table := fun _ _ => 0
    largest_delta := 3
    least_delta := -3
    signature_hasher := { signature_bits := 2, n_shifts := 1, max_bits_per_delta := 3 } }

/-- Epoch-expiry scenario: a 2-row tracker with `steps_per_entry = 3`.  The
record `(100, delta 1, signature 2)` is inserted, followed by four further
`insert` calls (a distinct record, then two exact re-matches of the first
record, then an exact re-match of the second record).  Returns the tracker
states after the third and after the fourth subsequent call. -/
def epochScenario : Except String (RewardTrackerTable × RewardTrackerTable) := do
  let dq ← DeltaQTable.init 2 1 (1/2) (1/4) 0 256 64
  let tracker := RewardTrackerTable.init 2 3 dq
  let t ← tracker.insert 100 1 2
  let s1 ← t.insert 200 2 3
  let s2 ← s1.insert 100 1 2
  let s3 ← s2.insert 100 1 2
  let s4 ← s3.insert 200 2 3
  pure (s3, s4)

/-- Eviction scenario: a 4-row tracker (`steps_per_entry = 10`, so no epoch
expiry interferes) is filled with four distinct records at logical clocks
0..3, then a fifth distinct record is inserted while all four rows are
valid; the row with the smallest timestamp (row 0, clock 0) must be evicted.
Returns the tracker state after the fifth insertion. -/
def evictionScenario : Except String RewardTrackerTable := do
  let dq ← DeltaQTable.init 2 1 (1/2) (1/4) 0 256 64
  let tracker := RewardTrackerTable.init 4 10 dq
  let t1 ← tracker.insert 1000 1 0
  let t2 ← t1.insert 1100 2 1
  let t3 ← t2.insert 1200 (-1) 2
  let t4 ← t3.insert 1300 3 3
  t4.insert 1400 (-2) 1

/-- State of the fresh 2-row tracker over `dqW` after one insertion of the
record `(100, delta 1, signature 2)` (total extraction of the successful
`insert`). -/
def trW : RewardTrackerTable :=
  (((RewardTrackerTable.init 2 3 dqW).insert 100 1 2).toOption).getD
    (RewardTrackerTable.init 2 3 dqW)

/-! ### General lemmas about the helpers -/

theorem w64_congr {a b : Int}
    (h : a % 18446744073709551616 = b % 18446744073709551616) : w64 a = w64 b := by
  unfold w64
  have hmod : Int.ModEq 18446744073709551616 a b := h
  have := (hmod.add_right 9223372036854775808)
  rw [Int.ModEq] at this
  omega

theorem w64_emod_self (a : Int) :
    w64 a % 18446744073709551616 = a % 18446744073709551616 := by
  unfold w64
  omega

theorem w64_add_left (x y : Int) : w64 (w64 x + y) = w64 (x + y) := by
  apply w64_congr
  have h := w64_emod_self x
  have : Int.ModEq 18446744073709551616 (w64 x) x := h
  exact this.add_right y

theorem w64_sub_left (x y : Int) : w64 (w64 x - y) = w64 (x - y) := by
  apply w64_congr
  have h : Int.ModEq 18446744073709551616 (w64 x) x := w64_emod_self x
  exact h.sub_right y

theorem npArgmax_lt {α : Type} [LinearOrder α] (f : Nat → α) :
    ∀ n : Nat, 0 < n → npArgmax f n < n := by
  intro n
  induction n with
  | zero => intro h; exact absurd h (by omega)
  | succ m ih =>
    intro _
    match m with
    | 0 => simp [npArgmax]
    | k + 1 =>
      show npArgmax f (k + 2) < k + 2
      rw [npArgmax]
      split
      · omega
      · exact Nat.lt_succ_of_lt (ih (by omega))

theorem npArgmax_eq_rowMaxValue {α : Type} [LinearOrder α] (f : Nat → α) :
    ∀ n : Nat, f (npArgmax f n) = rowMaxValue f n := by
  intro n
  induction n with
  | zero => simp [npArgmax, rowMaxValue]
  | succ m ih =>
    match m with
    | 0 => simp [npArgmax, rowMaxValue]
    | k + 1 =>
      show f (npArgmax f (k + 2)) = rowMaxValue f (k + 2)
      rw [npArgmax, rowMaxValue]
      split
      · rename_i hlt
        rw [ih] at hlt
        exact (max_eq_right (le_of_lt hlt)).symm
      · rename_i hge
        rw [ih] at hge ⊢
        exact (max_eq_left (le_of_not_lt hge)).symm

theorem le_npArgmax {α : Type} [LinearOrder α] (f : Nat → α) :
    ∀ n : Nat, ∀ i : Nat, i < n → f i ≤ f (npArgmax f n) := by
  intro n
  induction n with
  | zero => intro i h; exact absurd h (by omega)
  | succ m ih =>
    intro i hi
    match m with
    | 0 =>
      have : i = 0 := by omega
      subst this
      simp [npArgmax]
    | k + 1 =>
      show f i ≤ f (npArgmax f (k + 2))
      rw [npArgmax]
      split
      · rename_i hlt
        rcases Nat.lt_succ_iff_lt_or_eq.mp hi with h | h
        · exact le_trans (ih i h) (le_of_lt hlt)
        · subst h; exact le_refl _
      · rename_i hge
        rcases Nat.lt_succ_iff_lt_or_eq.mp hi with h | h
        · exact ih i h
        · subst h; exact le_of_not_lt hge

theorem npArgmax_first {α : Type} [LinearOrder α] (f : Nat → α) :
    ∀ n : Nat, ∀ j : Nat, j < npArgmax f n → f j < f (npArgmax f n) := by
  intro n
  induction n with
  | zero => intro j h; simp [npArgmax] at h
  | succ m ih =>
    intro j hj
    match m with
    | 0 => simp [npArgmax] at hj
    | k + 1 =>
      rw [npArgmax] at hj ⊢
      split at hj
      · rename_i hlt
        rw [if_pos hlt]
        exact lt_of_le_of_lt (le_npArgmax f (k + 1) j hj) hlt
      · rename_i hge
        rw [if_neg hge]
        exact ih j hj

theorem npArgmin_lt {α : Type} [LinearOrder α] (f : Nat → α) :
    ∀ n : Nat, 0 < n → npArgmin f n < n := by
  intro n
  induction n with
  | zero => intro h; exact absurd h (by omega)
  | succ m ih =>
    intro _
    match m with
    | 0 => simp [npArgmin]
    | k + 1 =>
      show npArgmin f (k + 2) < k + 2
      rw [npArgmin]
      split
      · omega
      · exact Nat.lt_succ_of_lt (ih (by omega))

theorem npArgmin_le {α : Type} [LinearOrder α] (f : Nat → α) :
    ∀ n : Nat, ∀ i : Nat, i < n → f (npArgmin f n) ≤ f i := by
  intro n
  induction n with
  | zero => intro i h; exact absurd h (by omega)
  | succ m ih =>
    intro i hi
    match m with
    | 0 =>
      have : i = 0 := by omega
      subst this
      simp [npArgmin]
    | k + 1 =>
      show f (npArgmin f (k + 2)) ≤ f i
      rw [npArgmin]
      split
      · rename_i hlt
        rcases Nat.lt_succ_iff_lt_or_eq.mp hi with h | h
        · exact le_trans (le_of_lt hlt) (ih i h)
        · subst h; exact le_refl _
      · rename_i hge
        rcases Nat.lt_succ_iff_lt_or_eq.mp hi with h | h
        · exact ih i h
        · subst h; exact le_of_not_lt hge

theorem npArgmin_first {α : Type} [LinearOrder α] (f : Nat → α) :
    ∀ n : Nat, ∀ j : Nat, j < npArgmin f n → f (npArgmin f n) < f j := by
  intro n
  induction n with
  | zero => intro j h; simp [npArgmin] at h
  | succ m ih =>
    intro j hj
    match m with
    | 0 => simp [npArgmin] at hj
    | k + 1 =>
      rw [npArgmin] at hj ⊢
      split at hj
      · rename_i hlt
        rw [if_pos hlt]
        exact lt_of_lt_of_le hlt (npArgmin_le f (k + 1) j hj)
      · rename_i hge
        rw [if_neg hge]
        exact ih j hj


theorem dqW_eq_init : DeltaQTable.init 2 1 (1/2) (1/4) 0 256 64 = .ok dqW := by
  with_unfolding_all rfl

theorem insert_args_four : ∀ (t : RewardTrackerTable) (a b c d : Int),
    t.insert_args [a, b, c, d] =
      .error "TypeError: insert() takes 4 positional arguments but 5 were given" :=
  fun _ _ _ _ _ => rfl

theorem issue_prefetch_errors (q : QFetcher) (u : ℚ) (c : Nat)
    (ip addr blk sig : Int) :
    q.issue_prefetch u c ip addr blk sig =
      .error "TypeError: insert() takes 4 positional arguments but 5 were given" := rfl

theorem run_steps_errors :
    ∀ (l : List TraceEntry) (q : QFetcher) (rands : Nat → ℚ × Nat) (k : Nat)
      (sig ptag pblk : Int) (outs : List (Int × Int × ℚ)),
      hasIntraPage ptag l = true →
      QFetcher.run_steps q rands k sig ptag pblk outs l =
        .error "TypeError: insert() takes 4 positional arguments but 5 were given" := by
  intro l
  induction l with
  | nil => intro q rands k sig ptag pblk outs h; simp [hasIntraPage] at h
  | cons e rest ih =>
    intro q rands k sig ptag pblk outs h
    rw [QFetcher.run_steps]
    by_cases htag : e.load_tag = ptag
    · rw [if_neg (by simp [htag])]
      simp only [issue_prefetch_errors]
      rfl
    · rw [if_pos (by simp [htag])]
      apply ih
      simp [hasIntraPage, htag] at h
      exact h

theorem adjacent_hasIntraPage :
    ∀ (l : List TraceEntry) (x : TraceEntry) (i : Nat) (h : i + 1 < (x :: l).length),
      ((x :: l).get ⟨i, Nat.lt_of_succ_lt h⟩).load_tag = ((x :: l).get ⟨i + 1, h⟩).load_tag →
      hasIntraPage x.load_tag l = true := by
  intro l
  induction l with
  | nil => intro x i h; simp at h
  | cons y rest ih =>
    intro x i h heq
    match i with
    | 0 =>
      simp [List.get] at heq
      simp [hasIntraPage, heq]
    | j + 1 =>
      have h2 : j + 1 < (y :: rest).length := by
        simpa using Nat.lt_of_succ_lt_succ h
      have : hasIntraPage y.load_tag rest = true := by
        apply ih y j h2
        exact heq
      simp [hasIntraPage, this]

/-! ### The claims -/

/-- C1: on every non-page-jump trace transition, `QFetcher.issue_prefetch`
calls `RewardTrackerTable.insert` with four positional arguments
(`pref_addr`, `delta_next`, `delta_signature`, `invalid_prefetch`) although
`insert` is defined with only three parameters, so the call raises a
`TypeError`; consequently `issue_prefetch` always fails, and processing any
trace that contains at least one intra-page (equal-tag) transition aborts
with that `TypeError`, so no prefetch is ever successfully recorded in the
reward tracker or emitted to the output. -/
theorem C1 :
    (∀ (q : QFetcher) (u : ℚ) (c : Nat) (ip addr blk sig : Int),
      q.issue_prefetch u c ip addr blk sig =
        .error "TypeError: insert() takes 4 positional arguments but 5 were given") ∧
    (∀ (q : QFetcher) (rands : Nat → ℚ × Nat) (tr : List TraceEntry),
      (∃ i : Nat, ∃ h : i + 1 < tr.length,
        (tr.get ⟨i, Nat.lt_of_succ_lt h⟩).load_tag = (tr.get ⟨i + 1, h⟩).load_tag) →
      q.start rands tr =
        .error "TypeError: insert() takes 4 positional arguments but 5 were given") := by
  constructor
  · exact issue_prefetch_errors
  · intro q rands tr h
    obtain ⟨i, hlen, heq⟩ := h
    match tr with
    | e0 :: rest =>
      rw [QFetcher.start]
      exact run_steps_errors rest q rands 0 0 e0.load_tag e0.cache_blk []
        (adjacent_hasIntraPage rest e0 i hlen heq)

/-- Witness for C1: a two-entry trace whose second entry stays on the same
page (tag 7) makes the whole run abort with the `TypeError`. -/
theorem C1_witness :
    QFetcher.start ⟨4, RewardTrackerTable.init 2 3 dqW⟩ (fun _ => (0, 0))
      [⟨1, 100, 7, 1⟩, ⟨2, 164, 7, 2⟩] =
      .error "TypeError: insert() takes 4 positional arguments but 5 were given" :=
  C1.2 ⟨4, RewardTrackerTable.init 2 3 dqW⟩ (fun _ => (0, 0))
    [⟨1, 100, 7, 1⟩, ⟨2, 164, 7, 2⟩] ⟨0, by decide, rfl⟩

/-- C2: for every signature `s`, delta in `[least_delta, largest_delta]` and
reward `r`, `DeltaQTable.update s d r` changes exactly the cell `Q[s, a]`
with `a = d - least_delta`, setting it to
`Q_old + alpha * (r + gamma * max_a Q[s_next, a] - Q_old)` where
`s_next = SignatureHash.next_signature s d` is computed from `s` and `d`
themselves; being a pure function of the table state and the arguments, the
result is deterministic for fixed `alpha`, `gamma` and table state. -/
theorem C2 (t : DeltaQTable) (s delta : Int) (reward : ℚ)
    (h1 : t.least_delta ≤ delta) (h2 : delta ≤ t.largest_delta)
    (h3 : 1 ≤ t.n_cache_line_offsets) :
    ((t.update s delta reward).delta_q_table s (delta - t.least_delta) =
      t.delta_q_table s (delta - t.least_delta) +
        t.alpha * (reward +
          t.gamma *
            rowMaxValue
              (fun i => t.delta_q_table (t.signature_hasher.next_signature s delta) (i : Int))
              t.n_cache_line_offsets.toNat -
          t.delta_q_table s (delta - t.least_delta))) ∧
    (∀ s2 a2 : Int, ¬(s2 = s ∧ a2 = delta - t.least_delta) →
      (t.update s delta reward).delta_q_table s2 a2 = t.delta_q_table s2 a2) := by
  constructor
  · show (if s = s ∧ delta - t.least_delta = t.get_column_index delta then _ else _) = _
    rw [if_pos ⟨rfl, rfl⟩,
      ← npArgmax_eq_rowMaxValue
        (fun i => t.delta_q_table (t.signature_hasher.next_signature s delta) (i : Int))
        t.n_cache_line_offsets.toNat]
    rfl
  · intro s2 a2 hne
    show (if s2 = s ∧ a2 = t.get_column_index delta then _ else _) = _
    rw [if_neg]
    intro hc
    exact hne ⟨hc.1, hc.2⟩

/-- Witness for C2: updating the all-zero table `dqW` at signature 0, delta
0 (column 3) with reward 5 sets that cell to `0 + (1/2)*(5 + (1/4)*0 - 0)`
and leaves a different cell unchanged. -/
theorem C2_witness :
    dqW.least_delta ≤ 0 ∧ (0 : Int) ≤ dqW.largest_delta ∧
    ((dqW.update 0 0 5).delta_q_table 0 (0 - dqW.least_delta) =
      dqW.delta_q_table 0 (0 - dqW.least_delta) +
        dqW.alpha * (5 +
          dqW.gamma *
            rowMaxValue
              (fun i => dqW.delta_q_table (dqW.signature_hasher.next_signature 0 0) (i : Int))
              dqW.n_cache_line_offsets.toNat -
          dqW.delta_q_table 0 (0 - dqW.least_delta))) ∧
    (dqW.update 0 0 5).delta_q_table 1 0 = dqW.delta_q_table 1 0 :=
  ⟨by decide, by decide,
    (C2 dqW 0 0 5 (by decide) (by decide) (by decide)).1,
    (C2 dqW 0 0 5 (by decide) (by decide) (by decide)).2 1 0 (by decide)⟩

/-- C3: the claim states that `_to_sign_magnitude` encodes a delta as a
fixed-width (`ceil(log2(max_delta_magnitude)) + 2`-bit) sign-magnitude
value, so that distinct legal deltas get distinct encodings — as the
docstring of the method itself also asserts via `self.max_bits_per_delta`.  The
code instead prepends the sign bit to the minimal-width binary magnitude,
so for the hasher built with `max_delta_val = 63` (and any `signature_bits`
and shift, here 12 and 3) the distinct legal deltas `3` and `-1` both
encode to `0b11 = 3`, and consequently `next_signature` cannot tell them
apart from any current signature. -/
theorem C3 : ∀ s : Int,
    SignatureHash.to_sign_magnitude 3 = 3 ∧
    SignatureHash.to_sign_magnitude (-1) = 3 ∧
    (SignatureHash.init 12 3 63).max_bits_per_delta = 7 ∧
    (SignatureHash.init 12 3 63).next_signature s 3 =
      (SignatureHash.init 12 3 63).next_signature s (-1) := by
  intro s
  refine ⟨by decide, by decide, by decide, ?_⟩
  unfold SignatureHash.next_signature
  have h : SignatureHash.to_sign_magnitude 3 = SignatureHash.to_sign_magnitude (-1) := by decide
  rw [h]

/-- C4 counterexample: in `epochScenario`, the record `(100, 1, 2)` is
inserted into a tracker with `steps_per_entry = 3`, and then exactly 3
subsequent `insert` calls elapse (the second and third of which even match
it exactly).  Contrary to the claim, after those 3 calls the entry is still
valid (`valid = 1`) — merely aged to 3 — and nothing has been flushed into
its Q-table cell `Q[2, 4]` (the cell for signature 2, delta 1), which is
still 0. -/
theorem C4_counterexample :
    (epochScenario.map fun p =>
      ((p.1.reward_table 0).valid, (p.1.reward_table 0).step,
        p.1.delta_q_table.delta_q_table 2 4)) = .ok (1, 3, 0) := by
  with_unfolding_all rfl

/-- C4 (amended): with `steps_per_entry = 3`, a valid inserted entry is
flushed into the `DeltaQTable` and invalidated during the next `insert`
call after 3 subsequent `insert` calls have elapsed — i.e. at the start of
the 4th subsequent call, because each `insert` checks `age ≥
steps_per_entry` before incrementing ages.  In `epochScenario`: after the
3rd subsequent call the entry `(100, 1, 2)` is still valid with age 3; the
4th subsequent call (an exact match of the other row, so nothing else
touches row 0) invalidates row 0 and flushes its accumulated reward 47 into
`Q[2, 4]`, which becomes `0 + (1/2)*(47 + (1/4)*0 - 0) = 47/2`. -/
theorem C4 :
    (epochScenario.map fun p =>
      ((p.1.reward_table 0).valid, (p.1.reward_table 0).step,
        (p.2.reward_table 0).valid, (p.2.reward_table 0).delta_signature,
        (p.2.reward_table 0).delta, p.2.delta_q_table.delta_q_table 2 4)) =
      .ok (1, 3, 0, 2, 1, 47/2) := by
  with_unfolding_all rfl

theorem clock_invalidate_entries (t : RewardTrackerTable) :
    t.invalidate_entries.logical_clock = t.logical_clock := rfl

theorem clock_increment_steps (t : RewardTrackerTable) :
    t.increment_steps.logical_clock = t.logical_clock := rfl

theorem clock_update_existing (t : RewardTrackerTable) (m : Nat → Bool) :
    (t.update_existing m).logical_clock = t.logical_clock := rfl

theorem clock_issue_rewards (t : RewardTrackerTable) (f : Bool) (m e : Nat → Bool) :
    (t.issue_rewards f m e).logical_clock = t.logical_clock := by
  unfold RewardTrackerTable.issue_rewards
  split
  · split <;> rfl
  · rfl

theorem nentries_invalidate_entries (t : RewardTrackerTable) :
    t.invalidate_entries.n_entries = t.n_entries := rfl

theorem nentries_increment_steps (t : RewardTrackerTable) :
    t.increment_steps.n_entries = t.n_entries := rfl

theorem insert_ok_clock (t : RewardTrackerTable) (a d s : Int) (tr : RewardTrackerTable)
    (h : t.insert a d s = .ok tr) : tr.logical_clock = t.logical_clock + 1 := by
  unfold RewardTrackerTable.insert at h
  dsimp only at h
  split at h
  · exact absurd h (by simp [throw, throwThe, MonadExcept.throw])
  · rcases hfv : LRU.find_victim
        (fun i => (t.invalidate_entries.increment_steps.reward_table i).timestamp)
        (fun i => (t.invalidate_entries.increment_steps.reward_table i).valid)
        t.invalidate_entries.increment_steps.n_entries with m | v
    · rw [hfv] at h
      exact absurd h (by simp [Bind.bind, Except.bind])
    · rw [hfv] at h
      simp only [Bind.bind, Except.bind, pure, Except.pure] at h
      obtain rfl : _ = tr := Except.ok.inj h
      show _ + 1 = t.logical_clock + 1
      congr 1
      split
      · exact (clock_issue_rewards _ _ _ _)
      · exact (clock_issue_rewards _ _ _ _)

theorem check_clock (t : RewardTrackerTable) (a s : Int) :
    (t.check_n_give_reward a s).logical_clock = t.logical_clock := by
  unfold RewardTrackerTable.check_n_give_reward
  split
  · exact clock_issue_rewards _ _ _ _
  · rfl

/-- C5 counterexample: the logical clock is not advanced on the page-jump
(`check_n_give_reward`) path.  After one `insert` the clock is 1; a
subsequent `check_n_give_reward` on the very address that was inserted
(an exact match, so rewards are issued) leaves the clock at 1, although the
claim requires one increment per processed address on both paths. -/
theorem C5_counterexample :
    (do
      let dq ← DeltaQTable.init 2 1 (1/2) (1/4) 0 256 64
      let t0 := RewardTrackerTable.init 2 3 dq
      let t1 ← t0.insert 100 1 2
      pure (t1.logical_clock, (t1.check_n_give_reward 100 2).logical_clock))
      = .ok ((1 : Int), (1 : Int)) := by
  with_unfolding_all rfl

/-- C5 (amended): the logical clock of the reward tracker is monotone, but it is
incremented exactly once per `insert` call (the prefetch-issuing path) and
is left unchanged by `check_n_give_reward` (the page-jump path), so it does
not count page-jump addresses. -/
theorem C5 :
    (∀ (t : RewardTrackerTable) (a d s : Int) (tr : RewardTrackerTable),
      t.insert a d s = .ok tr → tr.logical_clock = t.logical_clock + 1) ∧
    (∀ (t : RewardTrackerTable) (a s : Int),
      (t.check_n_give_reward a s).logical_clock = t.logical_clock) :=
  ⟨insert_ok_clock, check_clock⟩

/-- Witness for C5: inserting into the fresh 2-row tracker over `dqW`
advances the clock from 0 to 1, and a reward check leaves it at 0. -/
theorem C5_witness :
    trW.logical_clock = (RewardTrackerTable.init 2 3 dqW).logical_clock + 1 ∧
    ((RewardTrackerTable.init 2 3 dqW).check_n_give_reward 100 2).logical_clock =
      (RewardTrackerTable.init 2 3 dqW).logical_clock :=
  ⟨C5.1 (RewardTrackerTable.init 2 3 dqW) 100 1 2 trW (by with_unfolding_all rfl),
    C5.2 (RewardTrackerTable.init 2 3 dqW) 100 2⟩

theorem ldiff_mask_lt (a k : Nat) : Nat.ldiff (2 ^ k - 1) a < 2 ^ k := by
  by_contra hcon
  push_neg at hcon
  obtain ⟨i, hik, hbit⟩ := Nat.ge_two_pow_implies_high_bit_true hcon
  rw [Nat.testBit_ldiff] at hbit
  have h2 : Nat.testBit (2 ^ k - 1) i = false := by
    rw [Nat.testBit_two_pow_sub_one]
    simp only [decide_eq_false_iff_not]
    omega
  rw [h2] at hbit
  simp at hbit

theorem int_land_mask (x : Int) (k : Nat) :
    0 ≤ Int.land x (2 ^ k - 1) ∧ Int.land x (2 ^ k - 1) < 2 ^ k := by
  have hone : 1 ≤ 2 ^ k := Nat.one_le_two_pow
  have hpow : ((2 ^ k : Nat) : Int) = (2 : Int) ^ k := by push_cast; ring
  have hcast : ((2 : Int) ^ k - 1) = ((2 ^ k - 1 : Nat) : Int) := by
    rw [Nat.cast_sub hone, hpow]
    norm_num
  rw [hcast]
  cases x with
  | ofNat a =>
    have hland : Int.land (Int.ofNat a) ((2 ^ k - 1 : Nat) : Int) =
        ((a &&& (2 ^ k - 1) : Nat) : Int) := rfl
    rw [hland, Nat.and_pow_two_sub_one_eq_mod a k]
    refine ⟨Int.natCast_nonneg _, ?_⟩
    calc ((a % 2 ^ k : Nat) : Int) < ((2 ^ k : Nat) : Int) := by
          exact_mod_cast Nat.mod_lt a (by omega)
      _ = (2 : Int) ^ k := hpow
  | negSucc a =>
    have hland : Int.land (Int.negSucc a) ((2 ^ k - 1 : Nat) : Int) =
        ((Nat.ldiff (2 ^ k - 1) a : Nat) : Int) := rfl
    rw [hland]
    refine ⟨Int.natCast_nonneg _, ?_⟩
    calc ((Nat.ldiff (2 ^ k - 1) a : Nat) : Int) < ((2 ^ k : Nat) : Int) := by
          exact_mod_cast ldiff_mask_lt a k
      _ = (2 : Int) ^ k := hpow

/-- C8: for every hasher state and all integer inputs (any current signature
and any delta), the result of `next_signature` lies in
`[0, 2^signature_bits)`; since the signature of the engine starts at 0 and is
only ever replaced by `next_signature` results, the signature stays in this
range across the whole run. -/
theorem C8 (h : SignatureHash) (curr delta : Int) :
    0 ≤ h.next_signature curr delta ∧
      h.next_signature curr delta < 2 ^ h.signature_bits := by
  unfold SignatureHash.next_signature
  exact int_land_mask _ h.signature_bits

/-- C9: with `epsilon = 0`, `get_next_offset` ignores the random draws
(`np.random.uniform()` returns `u ≥ 0`, which is never `< 0`) and always
returns, for every signature and table state, the first column attaining
the maximum Q-value of the row of that signature (so ties break towards the
lowest column index), together with `delta = column + least_delta` and the
byte offset `delta * cache_line_size_bytes`. -/
theorem C9 (t : DeltaQTable) (u : ℚ) (c : Nat) (sig : Int)
    (he : t.epsilon = 0) (hu : 0 ≤ u) (hn : 1 ≤ t.n_cache_line_offsets) :
    (t.get_next_offset u c sig =
      (npArgmax (fun i => t.delta_q_table sig (i : Int)) t.n_cache_line_offsets.toNat,
        (npArgmax (fun i => t.delta_q_table sig (i : Int)) t.n_cache_line_offsets.toNat : Int) +
          t.least_delta,
        ((npArgmax (fun i => t.delta_q_table sig (i : Int)) t.n_cache_line_offsets.toNat : Int) +
          t.least_delta) * t.cache_line_size_bytes)) ∧
    (t.delta_q_table sig
        (npArgmax (fun i => t.delta_q_table sig (i : Int)) t.n_cache_line_offsets.toNat : Int) =
      rowMaxValue (fun i => t.delta_q_table sig (i : Int)) t.n_cache_line_offsets.toNat) ∧
    (∀ j : Nat, j < t.n_cache_line_offsets.toNat →
      t.delta_q_table sig (j : Int) ≤
        t.delta_q_table sig
          (npArgmax (fun i => t.delta_q_table sig (i : Int)) t.n_cache_line_offsets.toNat : Int)) ∧
    (∀ j : Nat, j < npArgmax (fun i => t.delta_q_table sig (i : Int)) t.n_cache_line_offsets.toNat →
      t.delta_q_table sig (j : Int) <
        t.delta_q_table sig
          (npArgmax (fun i => t.delta_q_table sig (i : Int)) t.n_cache_line_offsets.toNat : Int)) ∧
    npArgmax (fun i => t.delta_q_table sig (i : Int)) t.n_cache_line_offsets.toNat <
      t.n_cache_line_offsets.toNat := by
  have hnotlt : ¬ u < t.epsilon := by rw [he]; exact not_lt.mpr hu
  refine ⟨?_, npArgmax_eq_rowMaxValue (fun i => t.delta_q_table sig (i : Int)) _,
    fun j hj => le_npArgmax (fun i => t.delta_q_table sig (i : Int)) _ j hj,
    fun j hj => npArgmax_first (fun i => t.delta_q_table sig (i : Int)) _ j hj, ?_⟩
  · unfold DeltaQTable.get_next_offset
    rw [if_neg hnotlt]
    rfl
  · exact npArgmax_lt _ _ (by omega)

/-- Witness for C9: on the all-zero table `dqW` (which has `epsilon = 0`),
drawing `u = 1/3` and any random column choice (here 5) still yields column
0, delta `-3`, byte offset `-192`. -/
theorem C9_witness :
    dqW.get_next_offset (1/3) 5 0 =
      (npArgmax (fun i => dqW.delta_q_table 0 (i : Int)) dqW.n_cache_line_offsets.toNat,
        (npArgmax (fun i => dqW.delta_q_table 0 (i : Int)) dqW.n_cache_line_offsets.toNat : Int) +
          dqW.least_delta,
        ((npArgmax (fun i => dqW.delta_q_table 0 (i : Int)) dqW.n_cache_line_offsets.toNat : Int) +
          dqW.least_delta) * dqW.cache_line_size_bytes) :=
  (C9 dqW (1/3) 5 0 rfl (by norm_num) (by decide)).1

/-- C7: LRU victim selection and eviction.  (1) When some entry is invalid
(valid bits are 0/1), `find_victim` deterministically returns the first
invalid index.  (2) When all entries are valid it returns the first index
attaining the smallest timestamp.  (3) In `evictionScenario`, inserting a
5th distinct `(address, signature)` record into the full 4-row tracker
evicts exactly row 0 — the row with the smallest timestamp 0 — flushing its
`(signature 0, delta 1, reward 12)` into the Q-table before the overwrite
(cell `Q[0, 4]` becomes `0 + (1/2)*(12 + (1/4)*0 - 0) = 6`), and row 0 then
holds the new record `(1400, -2, 1)` with reward 16 (hit reward), age 0,
timestamp 4 (the current clock) and valid bit 1, while the other rows keep
their records. -/
theorem C7 :
    (∀ (ts valids : Nat → Int) (n : Nat), 0 < n →
      (∀ i, i < n → valids i = 0 ∨ valids i = 1) →
      ∀ j, j < n → valids j = 0 →
        LRU.find_victim ts valids n = .ok (npArgmin valids n) ∧
        npArgmin valids n < n ∧ valids (npArgmin valids n) = 0 ∧
        (∀ i, i < npArgmin valids n → valids i = 1)) ∧
    (∀ (ts valids : Nat → Int) (n : Nat), 0 < n →
      (∀ i, i < n → valids i = 1) →
        LRU.find_victim ts valids n = .ok (npArgmin ts n) ∧
        npArgmin ts n < n ∧
        (∀ i, i < n → ts (npArgmin ts n) ≤ ts i) ∧
        (∀ j, j < npArgmin ts n → ts (npArgmin ts n) < ts j)) ∧
    (evictionScenario.map fun t =>
      (t.reward_table 0, t.delta_q_table.delta_q_table 0 4,
        (t.reward_table 1).prefetched_address, (t.reward_table 2).prefetched_address,
        (t.reward_table 3).prefetched_address)) =
      .ok (⟨1400, -2, 1, 16, 0, 4, 1⟩, 6, 1100, 1200, 1300) := by
  refine ⟨?_, ?_, ?_⟩
  · intro ts valids n hn hb j hj hjz
    have hchk : ReplacementPolicyBase.check_invalid_entry valids n = true := by
      simp only [ReplacementPolicyBase.check_invalid_entry, decide_eq_true_eq]
      exact ⟨j, hj, by omega⟩
    have hv : LRU.find_victim ts valids n = .ok (npArgmin valids n) := by
      unfold LRU.find_victim
      rw [if_neg (by omega), if_pos hchk]
    have hlt : npArgmin valids n < n := npArgmin_lt valids n hn
    have hle : valids (npArgmin valids n) ≤ 0 := hjz ▸ npArgmin_le valids n j hj
    have hz : valids (npArgmin valids n) = 0 := by
      rcases hb _ hlt with h0 | h1 <;> omega
    refine ⟨hv, hlt, hz, fun i hi => ?_⟩
    have := npArgmin_first valids n i hi
    rcases hb i (by omega) with h0 | h1 <;> omega
  · intro ts valids n hn hv
    have hchk : ReplacementPolicyBase.check_invalid_entry valids n = false := by
      simp only [ReplacementPolicyBase.check_invalid_entry, decide_eq_false_iff_not]
      rintro ⟨i, hi, hne⟩
      exact hne (hv i hi)
    refine ⟨?_, npArgmin_lt ts n hn,
      fun i hi => npArgmin_le ts n i hi,
      fun j hj => npArgmin_first ts n j hj⟩
    unfold LRU.find_victim
    rw [if_neg (by omega), hchk]
    rfl
  · with_unfolding_all rfl

/-- Witness for C7: on a 3-entry table with timestamps `5, 3, 4` and all
valid bits 1, `find_victim` picks index 1, the unique smallest timestamp. -/
theorem C7_witness :
    LRU.find_victim (fun i => if i = 1 then 3 else 5 - i) (fun _ => 1) 3 =
      .ok (npArgmin (fun i => if i = 1 then 3 else 5 - i) 3) ∧
    npArgmin (fun i => if i = 1 then (3 : Int) else 5 - i) 3 = 1 :=
  ⟨(C7.2.1 (fun i => if i = 1 then 3 else 5 - i) (fun _ => 1) 3 (by omega)
      (fun _ _ => rfl)).1, by decide⟩

theorem mask_sum_pos (t : RewardTrackerTable) (e : Nat → Bool) (i : Nat)
    (hi : i < t.n_entries) (he : e i = true) : 0 < t.mask_sum e := by
  unfold RewardTrackerTable.mask_sum
  rw [List.countP_pos]
  exact ⟨i, List.mem_range.mpr hi, he⟩

theorem w64_chain_add (r a b : Int) : w64 (w64 (w64 (r + a) - a) + b) = w64 (r + b) := by
  rw [w64_sub_left, w64_add_left]
  congr 1
  ring

theorem issue_rewards_row (t : RewardTrackerTable) (m e : Nat → Bool) (i : Nat)
    (hi : i < t.n_entries)
    (hmv : ∀ j, m j = true → (t.reward_table j).valid > 0)
    (hem : ∀ j, e j = true → m j = true) :
    (t.issue_rewards true m e).reward_table i =
      (if (t.reward_table i).valid > 0 then
        if m i = true then
          if e i = true then
            { t.reward_table i with
                reward := w64 ((t.reward_table i).reward + t.reward_hit)
                timestamp := w64 t.logical_clock }
          else
            { t.reward_table i with
                reward := w64 ((t.reward_table i).reward + t.reward_semi_hit) }
        else
          { t.reward_table i with
              reward := w64 ((t.reward_table i).reward + t.reward_miss) }
      else t.reward_table i) := by
  unfold RewardTrackerTable.issue_rewards RewardTrackerTable.update_existing
  rw [if_pos rfl]
  by_cases hvalid : (t.reward_table i).valid > 0
  · by_cases hm : m i = true
    · by_cases he : e i = true
      · have hpos : 0 < t.mask_sum e := mask_sum_pos t e i hi he
        simp only [hi, hvalid, hm, he, hpos, if_true, and_self, and_true, true_and,
          bne_self_eq_false, Bool.false_eq_true, if_false, ite_true]
        rw [w64_chain_add]
      · have he2 : e i = false := Bool.not_eq_true _ |>.mp he
        rcases Nat.eq_zero_or_pos (t.mask_sum e) with h0 | hpos
        · simp only [hi, hvalid, hm, he2, h0, if_true, and_self, and_true, true_and,
            Bool.false_eq_true, and_false, if_false, ite_true, lt_irrefl]
          rw [if_pos (by decide : ((true != false) = true)), w64_chain_add]
        · simp only [hi, hvalid, hm, he2, hpos, if_true, and_self, and_true, true_and,
            Bool.false_eq_true, and_false, if_false, ite_true]
          rw [if_pos (by decide : ((true != false) = true)), w64_chain_add]
    · have hm2 : m i = false := Bool.not_eq_true _ |>.mp hm
      have he2 : e i = false := Bool.not_eq_true _ |>.mp (fun hc => hm (hem i hc))
      rcases Nat.eq_zero_or_pos (t.mask_sum e) with h0 | hpos
      · simp only [hi, hvalid, hm2, he2, h0, if_true, and_self, and_true, true_and,
          Bool.false_eq_true, and_false, if_false, ite_true, lt_irrefl]
        rw [if_neg (by decide : ¬((false != false) = true))]
      · simp only [hi, hvalid, hm2, he2, hpos, if_true, and_self, and_true, true_and,
          Bool.false_eq_true, and_false, if_false, ite_true]
        rw [if_neg (by decide : ¬((false != false) = true))]
  · have hm2 : m i = false := Bool.not_eq_true _ |>.mp (fun hc => hvalid (hmv i hc))
    have he2 : e i = false := Bool.not_eq_true _ |>.mp (fun hc => hvalid (hmv i (hem i hc)))
    rcases Nat.eq_zero_or_pos (t.mask_sum e) with h0 | hpos
    · simp only [hi, hvalid, hm2, he2, h0, if_true, and_self, and_true, true_and,
        Bool.false_eq_true, and_false, if_false, ite_true, lt_irrefl, ite_false]
      rw [if_neg (by decide : ¬((false != false) = true))]
    · simp only [hi, hvalid, hm2, he2, hpos, if_true, and_self, and_true, true_and,
        Bool.false_eq_true, and_false, if_false, ite_true, ite_false]
      rw [if_neg (by decide : ¬((false != false) = true))]

theorem check_found_eq_issue (t : RewardTrackerTable) (a s : Int)
    (hfound : t.entry_found a = true) :
    t.check_n_give_reward a s =
      t.issue_rewards true (t.entry_matches a) (t.exact_matches a s) := by
  unfold RewardTrackerTable.check_n_give_reward
  rw [hfound]
  rw [if_pos rfl]

theorem entry_matches_valid (t : RewardTrackerTable) (a : Int) :
    ∀ j, t.entry_matches a j = true → (t.reward_table j).valid > 0 := by
  intro j hj
  unfold RewardTrackerTable.entry_matches at hj
  simp only [Bool.and_eq_true, decide_eq_true_eq] at hj
  exact hj.2

theorem exact_matches_sub (t : RewardTrackerTable) (a s : Int) :
    ∀ j, t.exact_matches a s j = true → t.entry_matches a j = true := by
  intro j hj
  unfold RewardTrackerTable.exact_matches at hj
  simp only [Bool.and_eq_true] at hj
  exact hj.1

/-- C6 counterexample: `check_n_give_reward` does not issue rewards when no
valid row matches the address.  After inserting the record `(100, 1, 2)`
(row 0: address 100, reward 16), a `check_n_give_reward` on the unmatched
address 300 leaves row 0 completely unchanged — in particular its reward
stays 16 instead of being penalized to 15 as the claim requires. -/
theorem C6_counterexample :
    (do
      let dq ← DeltaQTable.init 2 1 (1/2) (1/4) 0 256 64
      let t1 ← (RewardTrackerTable.init 2 3 dq).insert 100 1 2
      pure ((t1.check_n_give_reward 300 9).reward_table 0))
      = .ok ⟨100, 1, 2, 16, 0, 0, 1⟩ := by
  with_unfolding_all rfl

/-- C6 (amended): `check_n_give_reward(address, signature)` performs the
lookup, and only when at least one valid row matches the address does it
run `issue_rewards` — in which case every valid row is penalized by the
miss reward, the penalty is cancelled on address matches, an exact
address+signature match additionally receives the hit reward and a
timestamp refresh, and address-only matches receive the pseudo-hit reward;
it never inserts a new entry and never advances the logical clock.  When no
valid row matches the address, the tracker is left completely unchanged. -/
theorem C6 :
    (∀ (t : RewardTrackerTable) (a s : Int),
      t.entry_found a = false → t.check_n_give_reward a s = t) ∧
    (∀ (t : RewardTrackerTable) (a s : Int),
      t.entry_found a = true →
      (t.check_n_give_reward a s).logical_clock = t.logical_clock ∧
      ∀ i, i < t.n_entries →
        (((t.reward_table i).valid ≤ 0 →
            (t.check_n_give_reward a s).reward_table i = t.reward_table i) ∧
          ((t.reward_table i).valid > 0 → (t.reward_table i).prefetched_address ≠ a →
            (t.check_n_give_reward a s).reward_table i =
              { t.reward_table i with
                  reward := w64 ((t.reward_table i).reward + t.reward_miss) }) ∧
          ((t.reward_table i).valid > 0 → (t.reward_table i).prefetched_address = a →
            (t.reward_table i).delta_signature = s →
            (t.check_n_give_reward a s).reward_table i =
              { t.reward_table i with
                  reward := w64 ((t.reward_table i).reward + t.reward_hit)
                  timestamp := w64 t.logical_clock }) ∧
          ((t.reward_table i).valid > 0 → (t.reward_table i).prefetched_address = a →
            (t.reward_table i).delta_signature ≠ s →
            (t.check_n_give_reward a s).reward_table i =
              { t.reward_table i with
                  reward := w64 ((t.reward_table i).reward + t.reward_semi_hit) }))) := by
  constructor
  · intro t a s hfound
    unfold RewardTrackerTable.check_n_give_reward
    rw [hfound]
    simp
  · intro t a s hfound
    rw [check_found_eq_issue t a s hfound]
    refine ⟨clock_issue_rewards _ _ _ _, fun i hi => ?_⟩
    rw [issue_rewards_row t (t.entry_matches a) (t.exact_matches a s) i hi
      (entry_matches_valid t a) (exact_matches_sub t a s)]
    refine ⟨fun hinv => ?_, fun hv haddr => ?_, fun hv haddr hsig => ?_, fun hv haddr hsig => ?_⟩
    · rw [if_neg (by omega)]
    · rw [if_pos hv, if_neg]
      unfold RewardTrackerTable.entry_matches
      simp [haddr]
    · rw [if_pos hv, if_pos, if_pos]
      · unfold RewardTrackerTable.exact_matches RewardTrackerTable.entry_matches
        simp [haddr, hsig, hv]
      · unfold RewardTrackerTable.entry_matches
        simp [haddr, hv]
    · rw [if_pos hv, if_pos, if_neg]
      · unfold RewardTrackerTable.exact_matches
        simp [hsig]
      · unfold RewardTrackerTable.entry_matches
        simp [haddr, hv]

/-- Witness for C6: over `dqW`, a check on the unmatched address 300 leaves
the fresh tracker unchanged, and a check on the exact match `(100, 2)` in
`trW` gives row 0 the hit reward 16 on top of its reward 16 and refreshes
its timestamp to the clock 1. -/
theorem C6_witness :
    ((RewardTrackerTable.init 2 3 dqW).check_n_give_reward 300 9 =
      RewardTrackerTable.init 2 3 dqW) ∧
    ((trW.check_n_give_reward 100 2).reward_table 0 =
      { trW.reward_table 0 with
          reward := w64 ((trW.reward_table 0).reward + trW.reward_hit)
          timestamp := w64 trW.logical_clock }) :=
  ⟨C6.1 (RewardTrackerTable.init 2 3 dqW) 300 9 (by decide),
    ((C6.2 trW 100 2 (by decide)).2 0 (by decide)).2.2.1 (by decide) (by decide) (by decide)⟩

theorem nat_land_pred_eq_zero_iff :
    ∀ a : Nat, 0 < a → ((a &&& (a - 1)) = 0 ↔ ∃ k : Nat, a = 2 ^ k) := by
  intro a
  induction a using Nat.strong_induction_on with
  | _ a ih =>
    intro ha
    rcases Nat.even_or_odd a with heven | hodd
    · obtain ⟨b, hb⟩ := heven
      have hbpos : 0 < b := by omega
      have e1 : a = Nat.bit false b := by
        show a = 2 * b
        omega
      have e2 : a - 1 = Nat.bit true (b - 1) := by
        show a - 1 = 2 * (b - 1) + 1
        omega
      have key : a &&& (a - 1) = 2 * (b &&& (b - 1)) := by
        rw [e2, e1, Nat.land_bit]
        rfl
      constructor
      · intro h0
        have hb0 : b &&& (b - 1) = 0 := by omega
        obtain ⟨k, hk⟩ := (ih b (by omega) hbpos).mp hb0
        refine ⟨k + 1, ?_⟩
        have : (2 : Nat) ^ (k + 1) = 2 * 2 ^ k := by rw [pow_succ]; ring
        omega
      · rintro ⟨k, hk⟩
        match k with
        | 0 =>
          rw [pow_zero] at hk
          omega
        | k + 1 =>
          have h2 : (2 : Nat) ^ (k + 1) = 2 * 2 ^ k := by rw [pow_succ]; ring
          have hbk : b = 2 ^ k := by omega
          have hb0 : b &&& (b - 1) = 0 := (ih b (by omega) hbpos).mpr ⟨k, hbk⟩
          omega
    · obtain ⟨b, hb⟩ := hodd
      by_cases hbz : b = 0
      · subst hbz
        have ha1 : a = 1 := by omega
        subst ha1
        constructor
        · intro _
          exact ⟨0, rfl⟩
        · intro _
          rfl
      · have hbpos : 0 < b := by omega
        have e1 : a = Nat.bit true b := by
          show a = 2 * b + 1
          omega
        have e2 : a - 1 = Nat.bit false b := by
          show a - 1 = 2 * b
          omega
        have hself : b &&& b = b := Nat.and_self b
        have key : a &&& (a - 1) = 2 * b := by
          rw [e2, e1, Nat.land_bit, hself]
          rfl
        constructor
        · intro h0
          omega
        · rintro ⟨k, hk⟩
          match k with
          | 0 =>
            rw [pow_zero] at hk
            omega
          | k + 1 =>
            have h2 : (2 : Nat) ^ (k + 1) = 2 * 2 ^ k := by rw [pow_succ]; ring
            omega

theorem int_land_pred_pos_iff (x : Int) (hx : 0 < x) :
    (Int.land x (x - 1) = 0 ↔ ∃ k : Nat, x = 2 ^ k) := by
  obtain ⟨a, rfl⟩ : ∃ a : Nat, x = (a : Int) :=
    ⟨x.toNat, (Int.toNat_of_nonneg (le_of_lt hx)).symm⟩
  have ha : 0 < a := by exact_mod_cast hx
  have hsub : (a : Int) - 1 = ((a - 1 : Nat) : Int) := by omega
  rw [hsub]
  have hland : Int.land (a : Int) ((a - 1 : Nat) : Int) = ((a &&& (a - 1) : Nat) : Int) := rfl
  rw [hland, Nat.cast_eq_zero, nat_land_pred_eq_zero_iff a ha]
  constructor
  · rintro ⟨k, hk⟩
    exact ⟨k, by exact_mod_cast hk⟩
  · rintro ⟨k, hk⟩
    exact ⟨k, by exact_mod_cast hk⟩

theorem int_land_pred_neg (x : Int) (hx : x < 0) : Int.land x (x - 1) ≠ 0 := by
  cases x with
  | ofNat a => exact absurd hx (not_lt.mpr (Int.ofNat_nonneg a))
  | negSucc a =>
    have hsub : Int.negSucc a - 1 = Int.negSucc (a + 1) := by
      rw [Int.negSucc_eq, Int.negSucc_eq]
      push_cast
      ring
    rw [hsub]
    have hland : Int.land (Int.negSucc a) (Int.negSucc (a + 1)) =
        Int.negSucc (a ||| (a + 1)) := rfl
    rw [hland]
    simp

/-- C10 counterexample: `page_size_bytes = 64` and
`cache_line_size_bytes = 4096` are both powers of two and
`signature_bits = 2 > 1`, so the claim requires construction to succeed;
but `blocks_per_page = 64 // 4096 = 0` makes the column count
`2*blocks - 1 = -1`, and `np.zeros` rejects the negative dimension, so
construction fails. -/
theorem C10_counterexample :
    (∃ k : Nat, (64 : Int) = 2 ^ k) ∧ (∃ k : Nat, (4096 : Int) = 2 ^ k) ∧
      (1 : Int) < 2 ∧
      DeltaQTable.init 2 1 (1/2) (1/4) 0 64 4096 =
        .error "ValueError: negative dimensions are not allowed" :=
  ⟨⟨6, by norm_num⟩, ⟨12, by norm_num⟩, by norm_num, by with_unfolding_all rfl⟩

/-- C10 (amended): `DeltaQTable` construction fails if and only if
`page_size_bytes` is not a power of two, or `cache_line_size_bytes` is not
a power of two, or `signature_bits ≤ 1`, or `cache_line_size_bytes >
page_size_bytes` (in the last case both sizes pass the power-of-two
asserts but the derived column count `2*(page//line) - 1` is negative and
table creation fails); otherwise it succeeds and produces a
zero-initialized table of dimensions `2^signature_bits` by
`2*blocks_per_page - 1` with `blocks_per_page = page_size_bytes //
cache_line_size_bytes`. -/
theorem C10 (bits shift : Int) (al g ep : ℚ) (page line : Int) :
    ((∃ dq, DeltaQTable.init bits shift al g ep page line = .ok dq) ↔
      ((∃ k : Nat, page = 2 ^ k) ∧ (∃ k : Nat, line = 2 ^ k) ∧ 1 < bits ∧ line ≤ page)) ∧
    (∀ dq, DeltaQTable.init bits shift al g ep page line = .ok dq →
      dq.n_delta_q_entries = 2 ^ bits.toNat ∧
      dq.n_cache_blks_per_page = Int.fdiv page line ∧
      dq.n_cache_line_offsets = 2 * Int.fdiv page line - 1 ∧
      (∀ s c, dq.delta_q_table s c = 0)) := by
  constructor
  · constructor
    · rintro ⟨dq, h⟩
      unfold DeltaQTable.init at h
      dsimp only at h
      split at h
      · exact absurd h (by simp)
      · split at h
        · exact absurd h (by simp)
        · split at h
          · exact absurd h (by simp)
          · split at h
            · exact absurd h (by simp)
            · split at h
              · exact absurd h (by simp)
              · rename_i h1 h2 h3 h4 h5
                push_neg at h1 h2
                have hdiv : 1 ≤ Int.fdiv page line := by omega
                have hlinepos : 0 < line := by
                  rcases lt_trichotomy line 0 with hl | hl | hl
                  · exact absurd h2 (int_land_pred_neg line hl)
                  · exact absurd hl h4
                  · exact hl
                have hline2 : ∃ k : Nat, line = 2 ^ k :=
                  (int_land_pred_pos_iff line hlinepos).mp h2
                have hpagepos : 0 < page := by
                  rcases lt_trichotomy page 0 with hp | hp | hp
                  · exact absurd h1 (int_land_pred_neg page hp)
                  · rw [hp, Int.zero_fdiv] at hdiv
                    omega
                  · exact hp
                have hpage2 : ∃ k : Nat, page = 2 ^ k :=
                  (int_land_pred_pos_iff page hpagepos).mp h1
                refine ⟨hpage2, hline2, by omega, ?_⟩
                by_contra hcon
                push_neg at hcon
                have : Int.fdiv page line = 0 := by
                  rw [Int.fdiv_eq_ediv _ (le_of_lt hlinepos)]
                  exact Int.ediv_eq_zero_of_lt (le_of_lt hpagepos) hcon
                omega
    · rintro ⟨⟨k, rfl⟩, ⟨j, rfl⟩, hbits, hle⟩
      have hjk : j ≤ k := by
        by_contra hc
        push_neg at hc
        have : (2 : Int) ^ k < 2 ^ j := by
          apply pow_lt_pow_right₀ (by norm_num)
          omega
        omega
      have hfdiv : Int.fdiv ((2 : Int) ^ k) ((2 : Int) ^ j) = 2 ^ (k - j) := by
        have hsplit : (2 : Int) ^ k = 2 ^ j * 2 ^ (k - j) := by
          rw [← pow_add]
          congr 1
          omega
        rw [hsplit, Int.mul_fdiv_cancel_left _ (by positivity)]
      have hncols : ¬(2 * Int.fdiv ((2 : Int) ^ k) ((2 : Int) ^ j) - 1 < 0) := by
        rw [hfdiv]
        have : (0 : Int) < 2 ^ (k - j) := by positivity
        omega
      have hland1 : Int.land ((2 : Int) ^ k) ((2 : Int) ^ k - 1) = 0 :=
        (int_land_pred_pos_iff _ (by positivity)).mpr ⟨k, rfl⟩
      have hland2 : Int.land ((2 : Int) ^ j) ((2 : Int) ^ j - 1) = 0 :=
        (int_land_pred_pos_iff _ (by positivity)).mpr ⟨j, rfl⟩
      have hok : DeltaQTable.init bits shift al g ep ((2 : Int) ^ k) ((2 : Int) ^ j) =
          .ok { signature_bits := bits
                alpha := al
                gamma := g
                epsilon := ep
                page_size_bytes := 2 ^ k
                cache_line_size_bytes := 2 ^ j
                n_cache_blks_per_page := Int.fdiv (2 ^ k) (2 ^ j)
                n_cache_line_offsets := 2 * Int.fdiv (2 ^ k) (2 ^ j) - 1
                n_delta_q_entries := 2 ^ bits.toNat
                delta_q_table := fun _ _ => 0
                largest_delta := Int.fdiv (2 ^ k) (2 ^ j) - 1
                least_delta := -(Int.fdiv (2 ^ k) (2 ^ j) - 1)
                signature_hasher := SignatureHash.init bits.toNat shift.toNat
                  (Int.fdiv (2 ^ k) (2 ^ j) - 1) } := by
        unfold DeltaQTable.init
        rw [if_neg (not_not_intro hland1), if_neg (not_not_intro hland2),
          if_neg (by omega : ¬ bits ≤ 1),
          if_neg (ne_of_gt (by positivity : (0 : Int) < 2 ^ j))]
        dsimp only
        rw [if_neg hncols]
      exact ⟨_, hok⟩
  · intro dq h
    unfold DeltaQTable.init at h
    dsimp only at h
    split at h
    · exact absurd h (by simp)
    · split at h
      · exact absurd h (by simp)
      · split at h
        · exact absurd h (by simp)
        · split at h
          · exact absurd h (by simp)
          · split at h
            · exact absurd h (by simp)
            · obtain rfl := (Except.ok.inj h)
              exact ⟨rfl, rfl, rfl, fun _ _ => rfl⟩

/-- Witness for C10: instantiating with the configuration of `dqW`
(`signature_bits = 2`, 256-byte pages, 64-byte lines) both ways: the
construction succeeds, and the constructed table has 4 rows (`2^2`),
blocks `256 // 64 = 4`, `2*4 - 1 = 7` columns and all cells zero. -/
theorem C10_witness :
    dqW.n_delta_q_entries = 2 ^ (2 : Int).toNat ∧
    dqW.n_cache_blks_per_page = Int.fdiv 256 64 ∧
    dqW.n_cache_line_offsets = 2 * Int.fdiv 256 64 - 1 ∧
    (∀ s c, dqW.delta_q_table s c = 0) :=
  (C10 2 1 (1/2) (1/4) 0 256 64).2 dqW dqW_eq_init
